import Mathlib

/-
Shallow embedding of the heartbeat reduction subsystem of aw-server
(src/aw_server/api.py): the last-event cache (`last_event_cache` and
`ServerAPI._last_event`) and the heartbeat handler (`ServerAPI.heartbeat`).

Modelling choices:
* Instants and time spans are integers (`datetime`/`timedelta` arithmetic is
  exact at fixed microsecond resolution, so instants form a discrete ordered
  group; the unit is irrelevant to the properties and we write the staleness
  window as the literal 60 of the source, `timedelta(seconds=60)`).
* Event `data` (a JSON object in the source, compared with structural
  equality `==`) is modelled as an association list of string pairs; only
  decidable structural equality of `data` is ever used.
* The cache dict is keyed by bucket id and every operation of the subsystem
  touches exactly the key of the bucket it is called on, so the model keeps
  the state of a single bucket: one optional cached event and one store.
* The event store (`self.db[bucket_id]`, from `aw_datastore`) and the merge
  function (`aw_core.transforms.heartbeat_merge`) are not part of the
  repository sources; both are modelled from the spec, see their doc
  comments.
* `datetime.now(tz=timezone.utc)` is threaded through as an explicit
  parameter `now`.
-/

/-- Event data: the JSON mapping carried by an event, modelled structurally
as an association list of string key/value pairs; equality is structural
equality, as for Python dict `==`. -/
abbrev EventData := List (String × String)

/-- Modelled from the spec: `aw_core.models.Event` is not among the
repository sources.  Per the spec data model, an event has an opaque
identity (assigned by the store, may be absent before insert), a timestamp,
a duration and a data mapping. -/
structure Event where
  id : Option Nat
  timestamp : ℤ
  duration : ℤ
  data : EventData
  deriving DecidableEq, Repr

/-- The observable part of an event: timestamp, duration and data
(everything except the store-assigned identity). -/
def Event.obs (e : Event) : ℤ × ℤ × EventData :=
  (e.timestamp, e.duration, e.data)

/-- Modelled from the spec: the result of the store query
`get(limit=1, endtime=t)` on a list of events in insertion order — the
event with maximal timestamp among those with timestamp ≤ t, most recent
first, ties resolved toward the most recently written event. -/
def lastBefore : List Event → ℤ → Option Event
  | [], _ => none
  | x :: l, t =>
    match lastBefore l t with
    | none => if x.timestamp ≤ t then some x else none
    | some e => if x.timestamp ≤ t ∧ e.timestamp < x.timestamp then some x else some e

/-- Modelled from the spec: the per-bucket event store (`aw_datastore`,
reached as `self.db[bucket_id]`, external to the sources).  It holds the
bucket's events (in insertion order; replace keeps position) and a counter
for assigning fresh identities. -/
structure Store where
  events : List Event
  nextId : Nat
  deriving DecidableEq, Repr

/-- The store query `get(limit=1, endtime=t)`: the most recent event with
timestamp ≤ t. -/
def Store.lastEventBefore (s : Store) (t : ℤ) : Option Event :=
  lastBefore s.events t

/-- The raw result list of `get(limit=1, endtime=t)`: at most one event. -/
def Store.get1 (s : Store) (t : ℤ) : List Event :=
  match s.lastEventBefore t with
  | some e => [e]
  | none => []

/-- Modelled from the spec: `insert(bucketId, Event) -> Event` of the
external store assigns identity if absent and returns the stored
(authoritative) event; the stored event is appended to the bucket. -/
def Store.insert (s : Store) (e : Event) : Event × Store :=
  match e.id with
  | some _ => (e, ⟨s.events ++ [e], s.nextId⟩)
  | none =>
    let stored : Event := { e with id := some s.nextId }
    (stored, ⟨s.events ++ [stored], s.nextId + 1⟩)

/-- Modelled from the spec: `replace(bucketId, id, Event)` of the external
store overwrites by identity, preserving the event's position; an identity
matching no stored event (in particular an absent identity) overwrites
nothing. -/
def Store.replace (s : Store) (i : Option Nat) (e : Event) : Store :=
  ⟨s.events.map (fun x => if x.id = i then e else x), s.nextId⟩

/-- The guarded extraction `events[0] if len(events) >= 1 else None`
applied to the store fallback read of `ServerAPI._last_event`
(api.py line 131-132). -/
def storeFallback (store : Store) (ts : ℤ) : Option Event :=
  match store.get1 ts with
  | [] => none
  | e :: _ => some e

/-- Modelled from the spec: `aw_core.transforms.heartbeat_merge` is not
among the repository sources.  Per the spec merge algorithm: with
lastEnd = lastEvent.timestamp + lastEvent.duration, if
heartbeat.timestamp ≤ lastEnd + pulseWindow the merge succeeds and the
result keeps the last event's identity, timestamp and data, with
duration = max(lastEnd, heartbeat.timestamp) - lastEvent.timestamp;
otherwise there is no merge. -/
def heartbeat_merge (le hb : Event) (pulsetime : ℤ) : Option Event :=
  if hb.timestamp ≤ le.timestamp + le.duration + pulsetime then
    some { le with duration := max (le.timestamp + le.duration) hb.timestamp - le.timestamp }
  else
    none

/-- `ServerAPI._last_event(bucket_id, timestamp)` (api.py lines 112-137),
with the bucket's cache slot and store passed explicitly and the wall
clock as `now`.  Returns the found candidate event together with the
cache slot after the call (a stale cached entry is popped; an entry that
is merely newer than `ts` is kept). -/
def last_event (cache : Option Event) (store : Store) (now ts : ℤ) :
    Option Event × Option Event :=
  match cache with
  | some le =>
    if le.timestamp + le.duration < now - 60 then
      (storeFallback store ts, none)
    else if le.timestamp > ts then
      (storeFallback store ts, some le)
    else
      (some le, some le)
  | none => (storeFallback store ts, none)

/-- The per-bucket mutable state the heartbeat endpoint works on: the
bucket's slot of `last_event_cache` and the bucket's store. -/
structure HState where
  cache : Option Event
  store : Store
  deriving DecidableEq, Repr

/-- `ServerAPI.heartbeat(bucket_id, heartbeat, pulsetime)` (api.py lines
139-193).  On a mergeable last event it replaces by the last event's
identity, caches and returns the merged event; otherwise it inserts the
submitted heartbeat and caches and returns the submitted heartbeat (the
value returned by the store's insert is discarded, exactly as in the
source). -/
def heartbeat (st : HState) (hb : Event) (pulsetime now : ℤ) : Event × HState :=
  match (last_event st.cache st.store now hb.timestamp).1 with
  | some le =>
    if le.data = hb.data then
      match heartbeat_merge le hb pulsetime with
      | some merged => (merged, ⟨some merged, st.store.replace le.id merged⟩)
      | none => (hb, ⟨some hb, (st.store.insert hb).2⟩)
    else (hb, ⟨some hb, (st.store.insert hb).2⟩)
  | none => (hb, ⟨some hb, (st.store.insert hb).2⟩)

/-- The heartbeat handler with the last-event cache disabled: every lookup
falls through to the store (the cache-or-store lookup of
`_last_event` always takes its store branch). -/
def heartbeatNC (store : Store) (hb : Event) (pulsetime : ℤ) : Event × Store :=
  match storeFallback store hb.timestamp with
  | some le =>
    if le.data = hb.data then
      match heartbeat_merge le hb pulsetime with
      | some merged => (merged, store.replace le.id merged)
      | none => (hb, (store.insert hb).2)
    else (hb, (store.insert hb).2)
  | none => (hb, (store.insert hb).2)

/-- Serial submission of a sequence of heartbeats to one bucket, with the
cache enabled; returns the list of events returned to the callers and the
final state. -/
def runHeartbeats (st : HState) (hbs : List Event) (pulsetime now : ℤ) :
    List Event × HState :=
  match hbs with
  | [] => ([], st)
  | hb :: rest =>
    let r := heartbeat st hb pulsetime now
    let rr := runHeartbeats r.2 rest pulsetime now
    (r.1 :: rr.1, rr.2)

/-- Serial submission of a sequence of heartbeats to one bucket with the
cache disabled. -/
def runHeartbeatsNC (store : Store) (hbs : List Event) (pulsetime : ℤ) :
    List Event × Store :=
  match hbs with
  | [] => ([], store)
  | hb :: rest =>
    let r := heartbeatNC store hb pulsetime
    let rr := runHeartbeatsNC r.2 rest pulsetime
    (r.1 :: rr.1, rr.2)

/-- `_last_event` with a fallible store read: `failGet = some err` makes
the fallback read `self.db[bucket_id].get(...)` raise `err`.  Mirrors the
statement order of the source: the pop of a stale cache entry happens
before the fallback read, so it persists even when that read then fails.
Returns the outcome and the cache slot at return/raise time. -/
def last_eventF {ε : Type} (cache : Option Event) (store : Store) (now ts : ℤ)
    (failGet : Option ε) : Except ε (Option Event) × Option Event :=
  match cache with
  | some le =>
    if le.timestamp + le.duration < now - 60 then
      match failGet with
      | some err => (Except.error err, none)
      | none => (Except.ok (storeFallback store ts), none)
    else if le.timestamp > ts then
      match failGet with
      | some err => (Except.error err, some le)
      | none => (Except.ok (storeFallback store ts), some le)
    else (Except.ok (some le), some le)
  | none =>
    match failGet with
    | some err => (Except.error err, none)
    | none => (Except.ok (storeFallback store ts), none)

/-- `ServerAPI.heartbeat` with fallible store operations: each of the
fallback read, the replace and the insert either succeeds or raises the
given error, which propagates to the caller; mutations made before the
raising statement persist, as in the source.  Returns the outcome and the
state at return/raise time. -/
def heartbeatF {ε : Type} (st : HState) (hb : Event) (pulsetime now : ℤ)
    (failGet failReplace failInsert : Option ε) : Except ε Event × HState :=
  match last_eventF st.cache st.store now hb.timestamp failGet with
  | (Except.error err, c) => (Except.error err, ⟨c, st.store⟩)
  | (Except.ok r, c) =>
    match r with
    | some le =>
      if le.data = hb.data then
        match heartbeat_merge le hb pulsetime with
        | some merged =>
          match failReplace with
          | some err => (Except.error err, ⟨c, st.store⟩)
          | none => (Except.ok merged, ⟨some merged, st.store.replace le.id merged⟩)
        | none =>
          match failInsert with
          | some err => (Except.error err, ⟨c, st.store⟩)
          | none => (Except.ok hb, ⟨some hb, (st.store.insert hb).2⟩)
      else
        match failInsert with
        | some err => (Except.error err, ⟨c, st.store⟩)
        | none => (Except.ok hb, ⟨some hb, (st.store.insert hb).2⟩)
    | none =>
      match failInsert with
      | some err => (Except.error err, ⟨c, st.store⟩)
      | none => (Except.ok hb, ⟨some hb, (st.store.insert hb).2⟩)

-- Sanity checks on the spec's concrete scenario (§8.7): to be able to
-- evaluate, use concrete inputs.

example :
    (heartbeat ⟨none, ⟨[], 0⟩⟩ ⟨none, 100, 0, [("app", "X")]⟩ 5 100).1
      = ⟨none, 100, 0, [("app", "X")]⟩ := by decide

example :
    ((runHeartbeats ⟨none, ⟨[], 0⟩⟩
        [⟨none, 100, 0, [("app", "X")]⟩, ⟨none, 103, 0, [("app", "X")]⟩,
         ⟨none, 110, 0, [("app", "X")]⟩] 5 100).1).map Event.obs
      = [(100, 0, [("app", "X")]), (100, 3, [("app", "X")]), (110, 0, [("app", "X")])] := by
  decide

-- Lemmas about the store query `get(limit=1, endtime=t)`.

theorem storeFallback_eq (store : Store) (ts : ℤ) :
    storeFallback store ts = store.lastEventBefore ts := by
  unfold storeFallback Store.get1
  cases h : store.lastEventBefore ts <;> simp

theorem lastBefore_mem_le (l : List Event) (t : ℤ) (e : Event)
    (h : lastBefore l t = some e) : e ∈ l ∧ e.timestamp ≤ t := by
  induction l with
  | nil => simp [lastBefore] at h
  | cons x l ih =>
    rw [lastBefore] at h
    cases hl : lastBefore l t with
    | none =>
      simp only [hl] at h
      split_ifs at h with hx
      obtain rfl : x = e := Option.some.inj h
      exact ⟨List.mem_cons_self x l, hx⟩
    | some e' =>
      simp only [hl] at h
      split_ifs at h with hc
      · obtain rfl : x = e := Option.some.inj h
        exact ⟨List.mem_cons_self x l, hc.1⟩
      · obtain rfl : e' = e := Option.some.inj h
        obtain ⟨hmem, hle⟩ := ih hl
        exact ⟨List.mem_cons_of_mem x hmem, hle⟩

theorem lastBefore_isMax (l : List Event) (t : ℤ) (x : Event)
    (hx : x ∈ l) (hxt : x.timestamp ≤ t) :
    ∃ e, lastBefore l t = some e ∧ x.timestamp ≤ e.timestamp := by
  induction l with
  | nil => cases hx
  | cons y l ih =>
    rw [lastBefore]
    rcases List.mem_cons.mp hx with rfl | hmem
    · cases hl : lastBefore l t with
      | none => exact ⟨x, by simp [hxt], le_refl _⟩
      | some e' =>
        by_cases hc : x.timestamp ≤ t ∧ e'.timestamp < x.timestamp
        · exact ⟨x, by simp [hc], le_refl _⟩
        · refine ⟨e', by simp [hc], ?_⟩
          push_neg at hc
          exact hc hxt
    · obtain ⟨e', he', hxe'⟩ := ih hmem
      simp only [he']
      by_cases hc : y.timestamp ≤ t ∧ e'.timestamp < y.timestamp
      · exact ⟨y, by simp [hc], le_trans hxe' (le_of_lt hc.2)⟩
      · exact ⟨e', by simp [hc], hxe'⟩

theorem lastBefore_eq_none (l : List Event) (t : ℤ)
    (h : ∀ x ∈ l, t < x.timestamp) : lastBefore l t = none := by
  induction l with
  | nil => rfl
  | cons x l ih =>
    rw [lastBefore, ih (fun y hy => h y (List.mem_cons_of_mem x hy))]
    rw [if_neg (not_le.mpr (h x (List.mem_cons_self x l)))]

theorem lastBefore_append_last (L : List Event) (y : Event) (t : ℤ)
    (hL : ∀ x ∈ L, x.timestamp ≤ y.timestamp) (hy : y.timestamp ≤ t) :
    lastBefore (L ++ [y]) t = some y := by
  induction L with
  | nil =>
    rw [List.nil_append, lastBefore, lastBefore, if_pos hy]
  | cons x L ih =>
    rw [List.cons_append, lastBefore]
    simp only [ih (fun z hz => hL z (List.mem_cons_of_mem x hz))]
    have hx : x.timestamp ≤ y.timestamp := hL x (List.mem_cons_self x L)
    rw [if_neg (fun hc => absurd hc.2 (not_lt.mpr hx))]

-- Lemma about the state left behind by the fallible lookup, and which
-- store error it surfaces.

theorem last_eventF_state {ε : Type} (cache : Option Event) (store : Store)
    (now ts : ℤ) (fg : Option ε) :
    ((last_eventF cache store now ts fg).2 = cache
      ∨ ∃ e, cache = some e ∧ e.timestamp + e.duration < now - 60
          ∧ (last_eventF cache store now ts fg).2 = none)
    ∧ (∀ err, (last_eventF cache store now ts fg).1 = Except.error err → fg = some err) := by
  rcases cache with _ | le
  · rcases fg with _ | err1
    · exact ⟨Or.inl rfl, by intro err h; simp [last_eventF] at h⟩
    · exact ⟨Or.inl rfl, by intro err h; simp [last_eventF] at h; rw [h]⟩
  · by_cases hs : le.timestamp + le.duration < now - 60
    · rcases fg with _ | err1
      · refine ⟨Or.inr ⟨le, rfl, hs, by simp [last_eventF, hs]⟩, ?_⟩
        intro err h; simp [last_eventF, hs] at h
      · refine ⟨Or.inr ⟨le, rfl, hs, by simp [last_eventF, hs]⟩, ?_⟩
        intro err h; simp [last_eventF, hs] at h; rw [h]
    · by_cases hn : le.timestamp > ts
      · rcases fg with _ | err1
        · exact ⟨Or.inl (by simp [last_eventF, hs, hn]),
            by intro err h; simp [last_eventF, hs, hn] at h⟩
        · exact ⟨Or.inl (by simp [last_eventF, hs, hn]),
            by intro err h; simp [last_eventF, hs, hn] at h; rw [h]⟩
      · exact ⟨Or.inl (by simp [last_eventF, hs, hn]),
          by intro err h; simp [last_eventF, hs, hn] at h⟩

-- Concrete inputs used by witnesses and counterexamples.

def dX : EventData := [("app", "X")]

def dY : EventData := [("app", "Y")]

def hbX : Event := ⟨none, 100, 0, dX⟩

def st0 : HState := ⟨none, ⟨[], 0⟩⟩

def leW : Event := ⟨some 0, 100, 0, dX⟩

def hbW3 : Event := ⟨none, 103, 0, dX⟩

def hbY : Event := ⟨none, 110, 0, dY⟩

def st8 : HState := ⟨some leW, ⟨[leW], 1⟩⟩

def storeW : Store := ⟨[⟨some 0, 3, 1, dX⟩], 1⟩

def eW5 : Event := ⟨some 0, 10, 0, dX⟩

def eW6 : Event := ⟨some 0, 0, 0, dX⟩

def stC4 : HState := ⟨some eW6, ⟨[], 0⟩⟩

/-- C1 counterexample: with an empty bucket and empty cache, the event the
handler returns (and caches) is the submitted heartbeat, which differs
from the stored event produced by the store's insert (the store assigned
identity 0, the returned event has no identity). -/
theorem C1_cex :
    (heartbeat st0 hbX 5 100).1 ≠ (st0.store.insert hbX).1
    ∧ (heartbeat st0 hbX 5 100).2.cache ≠ some (st0.store.insert hbX).1 := by
  decide

/-- C1 (amended): whenever no mergeable last event is found (the lookup
yields none, or the data differs, or the merge is refused), the handler
inserts the heartbeat via the store, and the event it returns and writes
into the cache is the submitted heartbeat value itself; the stored event
produced by the store's insert (with identity assigned) is discarded. -/
theorem C1_amended (st : HState) (hb : Event) (p now : ℤ)
    (h : (last_event st.cache st.store now hb.timestamp).1 = none
      ∨ ∃ le, (last_event st.cache st.store now hb.timestamp).1 = some le
          ∧ (le.data ≠ hb.data ∨ heartbeat_merge le hb p = none)) :
    heartbeat st hb p now = (hb, ⟨some hb, (st.store.insert hb).2⟩) := by
  rcases h with hnone | ⟨le, hle, hcase⟩
  · simp [heartbeat, hnone]
  · rcases hcase with hdata | hmerge
    · simp [heartbeat, hle, hdata]
    · by_cases hdata : le.data = hb.data
      · simp [heartbeat, hle, hdata, hmerge]
      · simp [heartbeat, hle, hdata]

/-- C1 witness: the amended statement evaluated on an empty bucket. -/
theorem C1_witness :
    heartbeat st0 hbX 5 100 = (hbX, ⟨some hbX, (st0.store.insert hbX).2⟩) :=
  C1_amended st0 hbX 5 100 (Or.inl (by decide))

/-- C3: for a last event and a heartbeat with equal data, the merge
succeeds exactly when the heartbeat's timestamp is at most the last
event's end plus the pulse window; on success the result keeps the last
event's identity, timestamp and data and has duration
max(lastEnd, heartbeat.timestamp) - lastEvent.timestamp; otherwise there
is no merge and the handler takes the insert path. -/
theorem C3 (le hb : Event) (p : ℤ) (hdata : le.data = hb.data) :
    ((heartbeat_merge le hb p).isSome ↔
        hb.timestamp ≤ le.timestamp + le.duration + p)
    ∧ (∀ m, heartbeat_merge le hb p = some m →
        m.id = le.id ∧ m.timestamp = le.timestamp ∧ m.data = le.data
        ∧ m.duration = max (le.timestamp + le.duration) hb.timestamp - le.timestamp)
    ∧ (heartbeat_merge le hb p = none → ∀ st now,
        (last_event st.cache st.store now hb.timestamp).1 = some le →
        heartbeat st hb p now = (hb, ⟨some hb, (st.store.insert hb).2⟩)) := by
  refine ⟨?_, ?_, ?_⟩
  · unfold heartbeat_merge
    by_cases hc : hb.timestamp ≤ le.timestamp + le.duration + p <;> simp [hc]
  · intro m hm
    unfold heartbeat_merge at hm
    split_ifs at hm with hc
    obtain rfl := Option.some.inj hm
    exact ⟨rfl, rfl, rfl, rfl⟩
  · intro hnone st now hlast
    simp [heartbeat, hlast, hdata, hnone]

/-- C3 witness: a merge three time units after a zero-duration event with
a pulse window of five succeeds, with equal data. -/
theorem C3_witness :
    leW.data = hbW3.data
    ∧ ((heartbeat_merge leW hbW3 5).isSome ↔
        hbW3.timestamp ≤ leW.timestamp + leW.duration + 5) :=
  ⟨rfl, (C3 leW hbW3 5 rfl).1⟩

/-- C4 counterexample: a heartbeat call whose cache entry is stale and
whose fallback store read fails propagates the failure, but the cache is
modified by that call: the stale entry was already evicted before the
failing read. -/
theorem C4_cex :
    (heartbeatF stC4 hbX 5 100 (some true) (none : Option Bool) none).1
        = Except.error true
    ∧ (heartbeatF stC4 hbX 5 100 (some true) (none : Option Bool) none).2.cache
        ≠ stC4.cache := by
  exact ⟨rfl, by decide⟩

/-- C4 (amended): when a store operation of the heartbeat call (the
fallback read, the replace, or the insert) fails, the failure is
propagated to the caller unchanged and the store is unmodified; no new
cache entry is written by that call — the only possible cache
modification is the eviction of a stale entry, which precedes the failing
fallback read. -/
theorem C4_amended (ε : Type) (st : HState) (hb : Event) (p now : ℤ)
    (fg fr fi : Option ε) (err : ε)
    (herr : (heartbeatF st hb p now fg fr fi).1 = Except.error err) :
    (heartbeatF st hb p now fg fr fi).2.store = st.store
    ∧ ((heartbeatF st hb p now fg fr fi).2.cache = st.cache
        ∨ ∃ e, st.cache = some e ∧ e.timestamp + e.duration < now - 60
            ∧ (heartbeatF st hb p now fg fr fi).2.cache = none)
    ∧ (fg = some err ∨ fr = some err ∨ fi = some err) := by
  rcases hL : last_eventF st.cache st.store now hb.timestamp fg with ⟨res, c⟩
  have hstate := last_eventF_state st.cache st.store now hb.timestamp fg
  rw [hL] at hstate
  rcases res with err1 | r
  · have hred : heartbeatF st hb p now fg fr fi = (Except.error err1, ⟨c, st.store⟩) := by
      simp [heartbeatF, hL]
    rw [hred] at herr ⊢
    have h2 : err1 = err := by simpa using herr
    subst h2
    exact ⟨rfl, hstate.1, Or.inl (hstate.2 err1 rfl)⟩
  · rcases r with _ | le
    · rcases fi with _ | err1
      · have hred : heartbeatF st hb p now fg fr none
            = (Except.ok hb, ⟨some hb, (st.store.insert hb).2⟩) := by
          simp [heartbeatF, hL]
        rw [hred] at herr
        simp at herr
      · have hred : heartbeatF st hb p now fg fr (some err1)
            = (Except.error err1, ⟨c, st.store⟩) := by
          simp [heartbeatF, hL]
        rw [hred] at herr ⊢
        have h2 : err1 = err := by simpa using herr
        subst h2
        exact ⟨rfl, hstate.1, Or.inr (Or.inr rfl)⟩
    · by_cases hd : le.data = hb.data
      · rcases hm : heartbeat_merge le hb p with _ | m
        · rcases fi with _ | err1
          · have hred : heartbeatF st hb p now fg fr none
                = (Except.ok hb, ⟨some hb, (st.store.insert hb).2⟩) := by
              simp [heartbeatF, hL, hd, hm]
            rw [hred] at herr
            simp at herr
          · have hred : heartbeatF st hb p now fg fr (some err1)
                = (Except.error err1, ⟨c, st.store⟩) := by
              simp [heartbeatF, hL, hd, hm]
            rw [hred] at herr ⊢
            have h2 : err1 = err := by simpa using herr
            subst h2
            exact ⟨rfl, hstate.1, Or.inr (Or.inr rfl)⟩
        · rcases fr with _ | err1
          · have hred : heartbeatF st hb p now fg none fi
                = (Except.ok m, ⟨some m, st.store.replace le.id m⟩) := by
              simp [heartbeatF, hL, hd, hm]
            rw [hred] at herr
            simp at herr
          · have hred : heartbeatF st hb p now fg (some err1) fi
                = (Except.error err1, ⟨c, st.store⟩) := by
              simp [heartbeatF, hL, hd, hm]
            rw [hred] at herr ⊢
            have h2 : err1 = err := by simpa using herr
            subst h2
            exact ⟨rfl, hstate.1, Or.inr (Or.inl rfl)⟩
      · rcases fi with _ | err1
        · have hred : heartbeatF st hb p now fg fr none
              = (Except.ok hb, ⟨some hb, (st.store.insert hb).2⟩) := by
            simp [heartbeatF, hL, hd]
          rw [hred] at herr
          simp at herr
        · have hred : heartbeatF st hb p now fg fr (some err1)
              = (Except.error err1, ⟨c, st.store⟩) := by
            simp [heartbeatF, hL, hd]
          rw [hred] at herr ⊢
          have h2 : err1 = err := by simpa using herr
          subst h2
          exact ⟨rfl, hstate.1, Or.inr (Or.inr rfl)⟩

/-- C4 witness: the amended statement evaluated at a failing insert on an
empty bucket with empty cache (the cache is untouched, the store error
surfaces unchanged). -/
theorem C4_witness :
    (heartbeatF st0 hbX 5 100 (none : Option Bool) none (some true)).2.store = st0.store
    ∧ ((heartbeatF st0 hbX 5 100 (none : Option Bool) none (some true)).2.cache = st0.cache
        ∨ ∃ e, st0.cache = some e ∧ e.timestamp + e.duration < 100 - 60
            ∧ (heartbeatF st0 hbX 5 100 (none : Option Bool) none (some true)).2.cache = none)
    ∧ ((none : Option Bool) = some true ∨ (none : Option Bool) = some true
        ∨ some true = some true) :=
  C4_amended Bool st0 hbX 5 100 none none (some true) true rfl

/-- C5: when the cache holds an entry that is not stale but is strictly
newer than the asOf timestamp, the lookup does not use the cached entry:
it consults the store for the predecessor at or before the asOf
timestamp, and the cached entry is not evicted. -/
theorem C5 (e : Event) (store : Store) (now ts : ℤ)
    (hfresh : ¬ e.timestamp + e.duration < now - 60)
    (hnewer : e.timestamp > ts) :
    last_event (some e) store now ts = (store.lastEventBefore ts, some e) := by
  simp [last_event, hfresh, hnewer, storeFallback_eq]

/-- C5 witness: a fresh cached entry at time 10 with a heartbeat at time
5 falls through to the store and stays cached. -/
theorem C5_witness :
    last_event (some eW5) storeW 10 5 = (storeW.lastEventBefore 5, some eW5) :=
  C5 eW5 storeW 10 5 (by decide) (by decide)

/-- C6: when the cached entry's end time lies more than 60 seconds before
the wall clock, the entry is evicted and the lookup falls through to a
store read, whatever the asOf timestamp is. -/
theorem C6 (e : Event) (store : Store) (now ts : ℤ)
    (hstale : e.timestamp + e.duration < now - 60) :
    last_event (some e) store now ts = (store.lastEventBefore ts, none) := by
  simp [last_event, hstale, storeFallback_eq]

/-- C6 witness: an entry ending at time 0 is evicted at wall clock 100. -/
theorem C6_witness :
    last_event (some eW6) storeW 100 5 = (storeW.lastEventBefore 5, none) :=
  C6 eW6 storeW 100 5 (by decide)

/-- C7: whenever the store fallback is taken (no cached entry, or the
cached entry is stale or strictly newer than the asOf timestamp), the
lookup queries the store for at most one event with timestamp at or
before the asOf timestamp, returns the most recent such event or none,
and the fallback read never populates the cache: the cache slot after
the lookup is the old one, or empty after a staleness eviction. -/
theorem C7 (cache : Option Event) (store : Store) (now ts : ℤ)
    (hfb : cache = none ∨ ∃ e, cache = some e ∧
        (e.timestamp + e.duration < now - 60 ∨ e.timestamp > ts)) :
    (last_event cache store now ts).1 = store.lastEventBefore ts
    ∧ (store.get1 ts).length ≤ 1
    ∧ (∀ e, store.lastEventBefore ts = some e →
        e ∈ store.events ∧ e.timestamp ≤ ts
          ∧ ∀ x ∈ store.events, x.timestamp ≤ ts → x.timestamp ≤ e.timestamp)
    ∧ (store.lastEventBefore ts = none → ∀ x ∈ store.events, ts < x.timestamp)
    ∧ ((last_event cache store now ts).2 = cache
        ∨ (last_event cache store now ts).2 = none) := by
  refine ⟨?_, ?_, ?_, ?_, ?_⟩
  · rcases hfb with rfl | ⟨e, rfl, he⟩
    · simp [last_event, storeFallback_eq]
    · by_cases hs : e.timestamp + e.duration < now - 60
      · simp [last_event, hs, storeFallback_eq]
      · rcases he with he | he
        · exact absurd he hs
        · simp [last_event, hs, he, storeFallback_eq]
  · unfold Store.get1
    cases h : store.lastEventBefore ts <;> simp
  · intro e he
    obtain ⟨hmem, hle⟩ := lastBefore_mem_le store.events ts e he
    refine ⟨hmem, hle, ?_⟩
    intro x hx hxt
    obtain ⟨e', he', hxe'⟩ := lastBefore_isMax store.events ts x hx hxt
    rw [Store.lastEventBefore] at he
    rw [he] at he'
    obtain rfl := Option.some.inj he'
    exact hxe'
  · intro hnone x hx
    by_contra hcon
    obtain ⟨e', he', _⟩ :=
      lastBefore_isMax store.events ts x hx (not_lt.mp hcon)
    rw [Store.lastEventBefore] at hnone
    rw [hnone] at he'
    cases he'
  · rcases hfb with rfl | ⟨e, rfl, he⟩
    · exact Or.inr rfl
    · by_cases hs : e.timestamp + e.duration < now - 60
      · exact Or.inr (by simp [last_event, hs])
      · rcases he with he | he
        · exact absurd he hs
        · exact Or.inl (by simp [last_event, hs, he])

/-- C7 witness: the fallback on an empty cache slot reads the store's
most recent event at or before the asOf timestamp and returns at most
one event. -/
theorem C7_witness :
    (last_event none storeW 0 5).1 = storeW.lastEventBefore 5
    ∧ (storeW.get1 5).length ≤ 1 :=
  ⟨(C7 none storeW 0 5 (Or.inl rfl)).1, (C7 none storeW 0 5 (Or.inl rfl)).2.1⟩

/-- C8: when the found last event's data differs from the heartbeat's
data, whatever the timestamps are, the handler inserts the heartbeat as
a new stored event (the store gains one appended event and nothing is
replaced), and a zero-duration heartbeat yields a stored event and a
returned event of duration zero. -/
theorem C8 (st : HState) (hb : Event) (p now : ℤ) (le : Event)
    (hlast : (last_event st.cache st.store now hb.timestamp).1 = some le)
    (hdata : le.data ≠ hb.data) :
    heartbeat st hb p now = (hb, ⟨some hb, (st.store.insert hb).2⟩)
    ∧ (st.store.insert hb).2.events = st.store.events ++ [(st.store.insert hb).1]
    ∧ (hb.duration = 0 → (heartbeat st hb p now).1.duration = 0
        ∧ ((st.store.insert hb).1).duration = 0) := by
  refine ⟨?_, ?_, ?_⟩
  · simp [heartbeat, hlast, hdata]
  · rcases hid : hb.id with _ | k <;> simp [Store.insert, hid]
  · intro h0
    constructor
    · have h1 : (heartbeat st hb p now).1 = hb := by simp [heartbeat, hlast, hdata]
      rw [h1, h0]
    · rcases hid : hb.id with _ | k <;> simp [Store.insert, hid, h0]

/-- C8 witness: a heartbeat with different data ten time units after the
cached last event is inserted as a new zero-duration event. -/
theorem C8_witness :
    heartbeat st8 hbY 5 100 = (hbY, ⟨some hbY, (st8.store.insert hbY).2⟩)
    ∧ (heartbeat st8 hbY 5 100).1.duration = 0 :=
  ⟨(C8 st8 hbY 5 100 leW (by decide) (by decide)).1,
   ((C8 st8 hbY 5 100 leW (by decide) (by decide)).2.2 rfl).1⟩

/-- C9: after every heartbeat call that returns normally, the bucket's
cache slot holds exactly the event the call returned — the merged event
on the replace path, the submitted heartbeat on the insert path — and is
overwritten on every call. -/
theorem C9 (st : HState) (hb : Event) (p now : ℤ) :
    (heartbeat st hb p now).2.cache = some (heartbeat st hb p now).1 := by
  unfold heartbeat
  rcases (last_event st.cache st.store now hb.timestamp).1 with _ | le
  · rfl
  · dsimp only
    by_cases hd : le.data = hb.data
    · rw [if_pos hd]
      rcases heartbeat_merge le hb p with _ | m
      · rfl
      · rfl
    · rw [if_neg hd]

/-- C10: for a heartbeat to a bucket that contains no event at or before
the heartbeat's timestamp, with a cache slot that cannot serve the call,
the store query comes back empty, the guarded lookup returns none
instead of faulting, and the handler takes the insert branch. -/
theorem C10 (st : HState) (hb : Event) (p now : ℤ)
    (hfb : st.cache = none ∨ ∃ e, st.cache = some e ∧
        (e.timestamp + e.duration < now - 60 ∨ e.timestamp > hb.timestamp))
    (hempty : ∀ e ∈ st.store.events, hb.timestamp < e.timestamp) :
    st.store.get1 hb.timestamp = []
    ∧ (last_event st.cache st.store now hb.timestamp).1 = none
    ∧ heartbeat st hb p now = (hb, ⟨some hb, (st.store.insert hb).2⟩) := by
  have hnone : st.store.lastEventBefore hb.timestamp = none :=
    lastBefore_eq_none st.store.events hb.timestamp hempty
  have hget : st.store.get1 hb.timestamp = [] := by
    unfold Store.get1
    rw [hnone]
  have hsf : storeFallback st.store hb.timestamp = none := by
    rw [storeFallback_eq, hnone]
  have hlast : (last_event st.cache st.store now hb.timestamp).1 = none := by
    rcases hfb with hc | ⟨e, hc, he⟩
    · simp [last_event, hc, hsf]
    · by_cases hs : e.timestamp + e.duration < now - 60
      · simp [last_event, hc, hs, hsf]
      · rcases he with he | he
        · exact absurd he hs
        · simp [last_event, hc, hs, he, hsf]
  exact ⟨hget, hlast, by simp [heartbeat, hlast]⟩

/-- C10 witness: the empty bucket with the empty cache slot. -/
theorem C10_witness :
    st0.store.get1 hbX.timestamp = []
    ∧ (last_event st0.cache st0.store 100 hbX.timestamp).1 = none
    ∧ heartbeat st0 hbX 5 100 = (hbX, ⟨some hbX, (st0.store.insert hbX).2⟩) :=
  C10 st0 hbX 5 100 (Or.inl rfl) (by decide)

-- Machinery for the cache-equivalence analysis.

theorem map_eq_self_of (l : List Event) (f : Event → Event)
    (h : ∀ e ∈ l, f e = e) : l.map f = l := by
  induction l with
  | nil => rfl
  | cons x l ih =>
    rw [List.map_cons, h x (List.mem_cons_self x l),
      ih (fun e he => h e (List.mem_cons_of_mem x he))]

/-- Relation tying the cache-run state to the cache-disabled run's store:
the cached event appears (carrying some store identity k) as the most
recently written event of the store, after events that are no newer than
it and whose identities are distinct from k and below the identity
counter. -/
def CacheInv (ec : Event) (S : Store) : Prop :=
  ∃ L k, S.events = L ++ [{ ec with id := some k }]
    ∧ k < S.nextId
    ∧ (∀ e ∈ L, e.timestamp ≤ ec.timestamp)
    ∧ ∀ e ∈ L, ∃ j, e.id = some j ∧ j < S.nextId ∧ j ≠ k

theorem runs_agree (p now : ℤ) (hbs : List Event) :
    ∀ (Tprev : ℤ) (ec : Event) (S Sn : Store),
      CacheInv ec Sn →
      ec.id = none →
      ec.timestamp ≤ Tprev →
      Tprev ≤ ec.timestamp + ec.duration →
      now - 60 ≤ Tprev →
      List.Chain' (fun a b : ℤ => a ≤ b) (Tprev :: hbs.map Event.timestamp) →
      (∀ hb ∈ hbs, hb.id = none) →
      (∀ hb ∈ hbs, 0 ≤ hb.duration) →
      ((runHeartbeats ⟨some ec, S⟩ hbs p now).1).map Event.obs
        = ((runHeartbeatsNC Sn hbs p).1).map Event.obs := by
  induction hbs with
  | nil =>
    intro Tprev ec S Sn _ _ _ _ _ _ _ _
    rfl
  | cons hb rest ih =>
    intro Tprev ec S Sn hInv hecid hecT hecE hfreshT hchain hids hdurs
    obtain ⟨L, k, hev, hkn, hLts, hLids⟩ := hInv
    have hchainx : List.Chain' (fun a b : ℤ => a ≤ b)
        (Tprev :: hb.timestamp :: rest.map Event.timestamp) := by
      simpa using hchain
    obtain ⟨hThb, hchain'⟩ := List.chain'_cons.mp hchainx
    have hbmem := List.mem_cons_self hb rest
    have hid : hb.id = none := hids hb hbmem
    have hids' : ∀ x ∈ rest, x.id = none :=
      fun x hx => hids x (List.mem_cons_of_mem hb hx)
    have hdurs' : ∀ x ∈ rest, 0 ≤ x.duration :=
      fun x hx => hdurs x (List.mem_cons_of_mem hb hx)
    have hechb : ec.timestamp ≤ hb.timestamp := le_trans hecT hThb
    have hnstale : ¬ ec.timestamp + ec.duration < now - 60 :=
      not_lt.mpr (le_trans hfreshT hecE)
    have hnnewer : ¬ ec.timestamp > hb.timestamp := not_lt.mpr hechb
    have hlook : (last_event (some ec) S now hb.timestamp).1 = some ec := by
      simp [last_event, hnstale, hnnewer]
    have hsf : storeFallback Sn hb.timestamp = some { ec with id := some k } := by
      rw [storeFallback_eq, Store.lastEventBefore, hev]
      exact lastBefore_append_last L { ec with id := some k } hb.timestamp hLts hechb
    have hmergeEq : heartbeat_merge { ec with id := some k } hb p
        = Option.map (fun x => { x with id := some k }) (heartbeat_merge ec hb p) := by
      unfold heartbeat_merge
      by_cases hc : hb.timestamp ≤ ec.timestamp + ec.duration + p <;> simp [hc]
    have hinsNC : (Sn.insert hb).2
        = ⟨Sn.events ++ [{ hb with id := some Sn.nextId }], Sn.nextId + 1⟩ := by
      simp [Store.insert, hid]
    have hInvIns : CacheInv hb (Sn.insert hb).2 := by
      rw [hinsNC]
      refine ⟨L ++ [{ ec with id := some k }], Sn.nextId, ?_, Nat.lt_succ_self _, ?_, ?_⟩
      · show Sn.events ++ [{ hb with id := some Sn.nextId }] = _
        rw [hev]
      · intro e he
        rcases List.mem_append.mp he with heL | heE
        · exact le_trans (hLts e heL) hechb
        · obtain rfl := List.mem_singleton.mp heE
          exact hechb
      · intro e he
        rcases List.mem_append.mp he with heL | heE
        · obtain ⟨j, hj, hjlt, _⟩ := hLids e heL
          exact ⟨j, hj, Nat.lt_succ_of_lt hjlt, Nat.ne_of_lt hjlt⟩
        · obtain rfl := List.mem_singleton.mp heE
          exact ⟨k, rfl, Nat.lt_succ_of_lt hkn, Nat.ne_of_lt hkn⟩
    have hinsFinish :
        heartbeat ⟨some ec, S⟩ hb p now = (hb, ⟨some hb, (S.insert hb).2⟩) →
        heartbeatNC Sn hb p = (hb, (Sn.insert hb).2) →
        ((runHeartbeats ⟨some ec, S⟩ (hb :: rest) p now).1).map Event.obs
          = ((runHeartbeatsNC Sn (hb :: rest) p).1).map Event.obs := by
      intro hstep1 hstep2
      have hrun1 : (runHeartbeats ⟨some ec, S⟩ (hb :: rest) p now).1
          = hb :: (runHeartbeats ⟨some hb, (S.insert hb).2⟩ rest p now).1 := by
        simp [runHeartbeats, hstep1]
      have hrun2 : (runHeartbeatsNC Sn (hb :: rest) p).1
          = hb :: (runHeartbeatsNC (Sn.insert hb).2 rest p).1 := by
        simp [runHeartbeatsNC, hstep2]
      rw [hrun1, hrun2, List.map_cons, List.map_cons]
      refine congrArg (List.cons _) ?_
      exact ih hb.timestamp hb (S.insert hb).2 (Sn.insert hb).2 hInvIns hid
        (le_refl _) (le_add_of_nonneg_right (hdurs hb hbmem))
        (le_trans hfreshT hThb) hchain' hids' hdurs'
    by_cases hd : ec.data = hb.data
    · rcases hmm : heartbeat_merge ec hb p with _ | m
      · have hm2 : heartbeat_merge { ec with id := some k } hb p = none := by
          rw [hmergeEq, hmm]
          rfl
        refine hinsFinish (by simp [heartbeat, hlook, hd, hmm]) ?_
        simp only [heartbeatNC, hsf]
        rw [if_pos hd]
        simp only [hm2]
      · have hmrec : m = { ec with duration := max (ec.timestamp + ec.duration) hb.timestamp - ec.timestamp } := by
          have h2 := hmm
          unfold heartbeat_merge at h2
          split_ifs at h2 with hc
          exact (Option.some.inj h2).symm
        subst hmrec
        have hm2 : heartbeat_merge { ec with id := some k } hb p = some { ec with id := some k, duration := max (ec.timestamp + ec.duration) hb.timestamp - ec.timestamp } := by
          rw [hmergeEq, hmm]
          rfl
        have hstep1 : heartbeat ⟨some ec, S⟩ hb p now = ({ ec with duration := max (ec.timestamp + ec.duration) hb.timestamp - ec.timestamp }, ⟨some { ec with duration := max (ec.timestamp + ec.duration) hb.timestamp - ec.timestamp }, S.replace ec.id { ec with duration := max (ec.timestamp + ec.duration) hb.timestamp - ec.timestamp }⟩) := by
          simp [heartbeat, hlook, hd, hmm]
        have hstep2 : heartbeatNC Sn hb p = ({ ec with id := some k, duration := max (ec.timestamp + ec.duration) hb.timestamp - ec.timestamp }, Sn.replace (some k) { ec with id := some k, duration := max (ec.timestamp + ec.duration) hb.timestamp - ec.timestamp }) := by
          simp only [heartbeatNC, hsf]
          rw [if_pos hd]
          simp only [hm2]
        have hrepl : Sn.replace (some k) { ec with id := some k, duration := max (ec.timestamp + ec.duration) hb.timestamp - ec.timestamp } = ⟨L ++ [{ ec with id := some k, duration := max (ec.timestamp + ec.duration) hb.timestamp - ec.timestamp }], Sn.nextId⟩ := by
          unfold Store.replace
          congr 1
          rw [hev, List.map_append]
          congr 1
          · apply map_eq_self_of
            intro e he
            obtain ⟨j, hj, _, hjk⟩ := hLids e he
            simp [hj, hjk]
          · simp
        have hInvM : CacheInv { ec with duration := max (ec.timestamp + ec.duration) hb.timestamp - ec.timestamp } (Sn.replace (some k) { ec with id := some k, duration := max (ec.timestamp + ec.duration) hb.timestamp - ec.timestamp }) := by
          rw [hrepl]
          exact ⟨L, k, rfl, hkn, fun e he => hLts e he, hLids⟩
        have hrun1 : (runHeartbeats ⟨some ec, S⟩ (hb :: rest) p now).1 = { ec with duration := max (ec.timestamp + ec.duration) hb.timestamp - ec.timestamp } :: (runHeartbeats ⟨some { ec with duration := max (ec.timestamp + ec.duration) hb.timestamp - ec.timestamp }, S.replace ec.id { ec with duration := max (ec.timestamp + ec.duration) hb.timestamp - ec.timestamp }⟩ rest p now).1 := by
          simp [runHeartbeats, hstep1]
        have hrun2 : (runHeartbeatsNC Sn (hb :: rest) p).1 = { ec with id := some k, duration := max (ec.timestamp + ec.duration) hb.timestamp - ec.timestamp } :: (runHeartbeatsNC (Sn.replace (some k) { ec with id := some k, duration := max (ec.timestamp + ec.duration) hb.timestamp - ec.timestamp }) rest p).1 := by
          simp [runHeartbeatsNC, hstep2]
        rw [hrun1, hrun2, List.map_cons, List.map_cons]
        refine congrArg (List.cons _) ?_
        refine ih hb.timestamp _ _ _ hInvM hecid hechb ?_ (le_trans hfreshT hThb) hchain' hids' hdurs'
        show hb.timestamp ≤ ec.timestamp + (max (ec.timestamp + ec.duration) hb.timestamp - ec.timestamp)
        have hmax := le_max_right (ec.timestamp + ec.duration) hb.timestamp
        linarith
    · exact hinsFinish (by simp [heartbeat, hlook, hd])
        (by simp [heartbeatNC, hsf, hd])

def hbA2 : Event := ⟨none, 105, 0, dX⟩

def hbB2 : Event := ⟨none, 112, 0, dY⟩

/-- C2 counterexample: for the out-of-order heartbeat sequence
(100, X), (110, Y), (105, X), (112, Y) with pulse window 5, the run with
the cache enabled and the run in which every lookup falls through to the
store return different event sequences: the fourth returned event has
timestamp 112 (a fresh insert) with the cache, but timestamp 110 (a
merge) without it.  Dropping cache entries therefore changes observable
behavior. -/
theorem C2_cex :
    (runHeartbeats ⟨none, ⟨[], 0⟩⟩ [hbX, hbY, hbA2, hbB2] 5 100).1
      ≠ (runHeartbeatsNC ⟨[], 0⟩ [hbX, hbY, hbA2, hbB2] 5).1
    ∧ ((runHeartbeats ⟨none, ⟨[], 0⟩⟩ [hbX, hbY, hbA2, hbB2] 5 100).1).map Event.timestamp
      = [100, 110, 100, 112]
    ∧ ((runHeartbeatsNC ⟨[], 0⟩ [hbX, hbY, hbA2, hbB2] 5).1).map Event.timestamp
      = [100, 110, 100, 110] := by
  refine ⟨by decide, by decide, by decide⟩

/-- C2 (amended): for a fixed finite sequence of heartbeats with
non-decreasing timestamps, submitted without identities and with
non-negative durations, serially to an initially empty bucket with an
empty cache slot, and a wall clock that triggers no staleness eviction
(at most 60 seconds past each heartbeat's timestamp), the sequence of
events returned by the handler agrees in timestamp, duration and data
with the run in which every lookup falls through to the store; the
store-assigned identities may differ, and for out-of-order sequences the
returned sequences themselves can differ (see the counterexample). -/
theorem C2_amended (hbs : List Event) (p now : ℤ)
    (hchain : List.Chain' (fun a b : Event => a.timestamp ≤ b.timestamp) hbs)
    (hids : ∀ hb ∈ hbs, hb.id = none)
    (hdurs : ∀ hb ∈ hbs, 0 ≤ hb.duration)
    (hfresh : ∀ hb ∈ hbs, now - 60 ≤ hb.timestamp) :
    ((runHeartbeats ⟨none, ⟨[], 0⟩⟩ hbs p now).1).map Event.obs
      = ((runHeartbeatsNC ⟨[], 0⟩ hbs p).1).map Event.obs := by
  cases hbs with
  | nil => rfl
  | cons hb rest =>
    have hbmem := List.mem_cons_self hb rest
    have hid0 : hb.id = none := hids hb hbmem
    have hstep1 : heartbeat ⟨none, ⟨[], 0⟩⟩ hb p now
        = (hb, ⟨some hb, ((⟨[], 0⟩ : Store).insert hb).2⟩) := by
      simp [heartbeat, last_event, storeFallback, Store.get1, Store.lastEventBefore, lastBefore]
    have hstep2 : heartbeatNC ⟨[], 0⟩ hb p = (hb, ((⟨[], 0⟩ : Store).insert hb).2) := by
      simp [heartbeatNC, storeFallback, Store.get1, Store.lastEventBefore, lastBefore]
    have hins : ((⟨[], 0⟩ : Store).insert hb).2 = ⟨[{ hb with id := some 0 }], 1⟩ := by
      simp [Store.insert, hid0]
    have hInv1 : CacheInv hb (⟨[{ hb with id := some 0 }], 1⟩ : Store) :=
      ⟨[], 0, rfl, Nat.lt_succ_self 0, fun e he => absurd he (List.not_mem_nil e),
        fun e he => absurd he (List.not_mem_nil e)⟩
    have hchainTail : List.Chain' (fun a b : ℤ => a ≤ b)
        (hb.timestamp :: rest.map Event.timestamp) := by
      have := (List.chain'_map Event.timestamp).mpr hchain
      simpa using this
    have hrun1 : (runHeartbeats ⟨none, ⟨[], 0⟩⟩ (hb :: rest) p now).1
        = hb :: (runHeartbeats ⟨some hb, ((⟨[], 0⟩ : Store).insert hb).2⟩ rest p now).1 := by
      simp [runHeartbeats, hstep1]
    have hrun2 : (runHeartbeatsNC ⟨[], 0⟩ (hb :: rest) p).1
        = hb :: (runHeartbeatsNC ((⟨[], 0⟩ : Store).insert hb).2 rest p).1 := by
      simp [runHeartbeatsNC, hstep2]
    rw [hrun1, hrun2, List.map_cons, List.map_cons, hins]
    refine congrArg (List.cons _) ?_
    exact runs_agree p now rest hb.timestamp hb _ _ hInv1 hid0 (le_refl _)
      (le_add_of_nonneg_right (hdurs hb hbmem)) (hfresh hb hbmem) hchainTail
      (fun x hx => hids x (List.mem_cons_of_mem hb hx))
      (fun x hx => hdurs x (List.mem_cons_of_mem hb hx))

/-- C2 witness: the amended statement evaluated on an in-order two-element
heartbeat sequence. -/
theorem C2_witness :
    ((runHeartbeats ⟨none, ⟨[], 0⟩⟩ [hbX, hbW3] 5 100).1).map Event.obs
      = ((runHeartbeatsNC ⟨[], 0⟩ [hbX, hbW3] 5).1).map Event.obs :=
  C2_amended [hbX, hbW3] 5 100
    (by simp [List.chain'_cons, List.chain'_singleton, hbX, hbW3])
    (by decide) (by decide) (by decide)
